import Mathlib

/-!
Verification development for the AHUB demo's data core (`src/app.py`):
the synthetic multi-source generator `generate_sample_data` and the
cross-source unifier `create_unified_dataset`.

Modelling choices (shallow embedding):
* A table is a `List` of fixed-shape records; numeric fields are `ℚ`
  (the Python code only multiplies and adds sampled values, so the
  exact-arithmetic model is faithful up to float rounding, which no
  claim depends on).
* Dates are day indices (`Nat`); `pd.date_range(...)[:90]` yields 90
  distinct dates, modelled as `List.range 90`.
* NumPy's globally seeded RNG is modelled as an explicit state
  `RState` = (seed, draw counter) threaded through every sampling
  call, together with an abstract sampling oracle `Sampler` mapping
  distribution parameters, seed and draw index to a value.  This
  captures exactly what the claims need: a seeded PRNG is a
  deterministic function of its seed and of how many draws have been
  made, and every `np.random.*` call advances the hidden counter.
  `np.random.seed 42` resets the state to `(42, 0)`.
-/

/-- One row of the Northern Trust table (TableA / SourceA). -/
structure NTRow where
  date : Nat
  account_id : String
  nav : ℚ
  total_assets : ℚ
  shares_outstanding : ℚ
  source : String
deriving DecidableEq, Repr

/-- One row of the State Street table (TableB / SourceB). -/
structure SSRow where
  date : Nat
  account_id : String
  market_value : ℚ
  cash_balance : ℚ
  accrued_income : ℚ
  source : String
deriving DecidableEq, Repr

/-- One row of the FactSet table (TableC / SourceC). -/
structure FSRow where
  date : Nat
  account_id : String
  benchmark_return : ℚ
  risk_score : ℚ
  expense_ratio : ℚ
  source : String
deriving DecidableEq, Repr

/-- One row of the unified (silver) table. -/
structure URow where
  date : Nat
  fund_id : String
  nav_per_share : ℚ
  total_net_assets : ℚ
  shares_outstanding : ℚ
  market_value : ℚ
  cash_balance : ℚ
  benchmark_return : ℚ
  risk_score : ℚ
  data_quality_score : ℚ
deriving DecidableEq, Repr

/-- State of the global NumPy RNG: the last seed set and the number of
draws made since that seed. -/
structure RState where
  seed : Nat
  ctr : Nat
deriving DecidableEq, Repr

/-- Abstract sampling oracle: a deterministic function from
distribution parameters, seed and draw index to the sampled value.
Each concrete NumPy build is one such oracle. -/
structure Sampler where
  normal : ℚ → ℚ → Nat → Nat → ℚ
  uniform : ℚ → ℚ → Nat → Nat → ℚ

/-- `np.random.seed n`: reset the global RNG, discarding its state. -/
def seedRng (n : Nat) (_s : RState) : RState := ⟨n, 0⟩

/-- `np.random.normal mean sd`: one draw, advancing the counter. -/
def drawNormal (smp : Sampler) (mean sd : ℚ) (s : RState) : ℚ × RState :=
  (smp.normal mean sd s.seed s.ctr, ⟨s.seed, s.ctr + 1⟩)

/-- `np.random.uniform lo hi`: one draw, advancing the counter. -/
def drawUniform (smp : Sampler) (lo hi : ℚ) (s : RState) : ℚ × RState :=
  (smp.uniform lo hi s.seed s.ctr, ⟨s.seed, s.ctr + 1⟩)

/-- The five-account universe of the Northern Trust table. -/
def ntAccounts : List String :=
  ["FUND001", "FUND002", "FUND003", "FUND004", "FUND005"]

/-- The three-account universe of the State Street table. -/
def ssAccounts : List String := ["FUND001", "FUND002", "FUND003"]

/-- The four-account universe of the FactSet table. -/
def fsAccounts : List String := ["FUND001", "FUND002", "FUND004", "FUND005"]

/-- Body of the Northern Trust generation loop (`app.py` lines 70-77):
`nav = 100 + np.random.normal(0, 2) + i * 0.01`,
`total_assets = np.random.uniform(50000000, 200000000)`,
`shares_outstanding = np.random.uniform(500000, 2000000)`. -/
def genNTRow (smp : Sampler) (i : Nat) (account : String) (s : RState) :
    NTRow × RState :=
  let p1 := drawNormal smp 0 2 s
  let p2 := drawUniform smp 50000000 200000000 p1.2
  let p3 := drawUniform smp 500000 2000000 p2.2
  (⟨i, account, 100 + p1.1 + (i : ℚ) * 0.01, p2.1, p3.1, "Northern Trust"⟩, p3.2)

/-- Body of the State Street generation loop (`app.py` lines 83-90). -/
def genSSRow (smp : Sampler) (i : Nat) (account : String) (s : RState) :
    SSRow × RState :=
  let p1 := drawUniform smp 45000000 190000000 s
  let p2 := drawUniform smp 1000000 5000000 p1.2
  let p3 := drawUniform smp 100000 500000 p2.2
  (⟨i, account, p1.1, p2.1, p3.1, "State Street"⟩, p3.2)

/-- Body of the FactSet generation loop (`app.py` lines 96-103):
`benchmark_return = np.random.normal(0.0008, 0.02)`,
`risk_score = np.random.uniform(1, 10)`,
`expense_ratio = np.random.uniform(0.005, 0.025)`. -/
def genFSRow (smp : Sampler) (i : Nat) (account : String) (s : RState) :
    FSRow × RState :=
  let p1 := drawNormal smp 0.0008 0.02 s
  let p2 := drawUniform smp 1 10 p1.2
  let p3 := drawUniform smp 0.005 0.025 p2.2
  (⟨i, account, p1.1, p2.1, p3.1, "FactSet"⟩, p3.2)

/-- Inner generation loop: one row per account of the given date. -/
def genRowsAcc {ρ : Type} (gen : Nat → String → RState → ρ × RState)
    (i : Nat) (accounts : List String) (s : RState) : List ρ × RState :=
  match accounts with
  | [] => ([], s)
  | a :: rest =>
    let p := gen i a s
    let q := genRowsAcc gen i rest p.2
    (p.1 :: q.1, q.2)

/-- Outer generation loop: `for i, date in enumerate(dates[:90]): for
account in accounts: ...`, appending rows in order. -/
def genRowsDates {ρ : Type} (gen : Nat → String → RState → ρ × RState)
    (dates : List Nat) (accounts : List String) (s : RState) :
    List ρ × RState :=
  match dates with
  | [] => ([], s)
  | d :: rest =>
    let p := genRowsAcc gen d accounts s
    let q := genRowsDates gen rest accounts p.2
    (p.1 ++ q.1, q.2)

/-- `generate_sample_data` (`app.py` lines 59-105): seed the global RNG
to 42, then build the Northern Trust, State Street and FactSet tables
over the first 90 dates. -/
def generate_sample_data (smp : Sampler) (s : RState) :
    (List NTRow × List SSRow × List FSRow) × RState :=
  let s0 := seedRng 42 s
  let pnt := genRowsDates (genNTRow smp) (List.range 90) ntAccounts s0
  let pss := genRowsDates (genSSRow smp) (List.range 90) ssAccounts pnt.2
  let pfs := genRowsDates (genFSRow smp) (List.range 90) fsAccounts pss.2
  ((pnt.1, pss.1, pfs.1), pfs.2)

/-- `df['col'].unique()`: the distinct values of a list, in order of
first appearance.  `seen` accumulates the values already emitted. -/
def uniqueAux {α : Type} [DecidableEq α] : List α → List α → List α
  | [], _ => []
  | x :: xs, seen =>
    if x ∈ seen then uniqueAux xs seen else x :: uniqueAux xs (x :: seen)

/-- The distinct values of a list, in order of first appearance. -/
def uniqueList {α : Type} [DecidableEq α] (l : List α) : List α :=
  uniqueAux l []

/-- `nt_df[(nt_df['date'] == date) & (nt_df['account_id'] == account)]`:
the Northern Trust rows matching a key, in table order. -/
def ntMatches (nt : List NTRow) (d : Nat) (a : String) : List NTRow :=
  nt.filter (fun r => r.date = d ∧ r.account_id = a)

/-- The State Street rows matching a key, in table order. -/
def ssMatches (ss : List SSRow) (d : Nat) (a : String) : List SSRow :=
  ss.filter (fun r => r.date = d ∧ r.account_id = a)

/-- The FactSet rows matching a key, in table order. -/
def fsMatches (fs : List FSRow) (d : Nat) (a : String) : List FSRow :=
  fs.filter (fun r => r.date = d ∧ r.account_id = a)

/-- Body of the unification loop (`app.py` lines 115-132): filter the
three tables by the key; if the Northern Trust match is nonempty, emit
one unified row, taking `iloc[0]` (the first match) of each nonempty
match, falling back to `total_assets * 0.95` / `* 0.05` for the State
Street fields and to fresh RNG draws for the FactSet fields, and
drawing `data_quality_score` unconditionally.  Draw order matches the
Python dict literal: benchmark fallback, then risk fallback, then
data-quality. -/
def unifyRow (smp : Sampler) (nt : List NTRow) (ss : List SSRow)
    (fs : List FSRow) (d : Nat) (a : String) (s : RState) :
    Option URow × RState :=
  match ntMatches nt d a with
  | [] => (none, s)
  | ntr :: _ =>
    let ssm := ssMatches ss d a
    let fsm := fsMatches fs d a
    let mv : ℚ := match ssm with
      | [] => ntr.total_assets * 0.95
      | sr :: _ => sr.market_value
    let cb : ℚ := match ssm with
      | [] => ntr.total_assets * 0.05
      | sr :: _ => sr.cash_balance
    let bp : ℚ × RState := match fsm with
      | [] => drawNormal smp 0.0008 0.02 s
      | fr :: _ => (fr.benchmark_return, s)
    let rp : ℚ × RState := match fsm with
      | [] => drawUniform smp 1 10 bp.2
      | fr :: _ => (fr.risk_score, bp.2)
    let dp := drawUniform smp 85 99 rp.2
    (some ⟨d, a, ntr.nav, ntr.total_assets, ntr.shares_outstanding,
           mv, cb, bp.1, rp.1, dp.1⟩, dp.2)

/-- Inner unification loop over the distinct accounts of one date. -/
def unifyAcc (smp : Sampler) (nt : List NTRow) (ss : List SSRow)
    (fs : List FSRow) (d : Nat) (accounts : List String) (s : RState) :
    List URow × RState :=
  match accounts with
  | [] => ([], s)
  | a :: rest =>
    let p := unifyRow smp nt ss fs d a s
    let q := unifyAcc smp nt ss fs d rest p.2
    (match p.1 with
     | none => q.1
     | some u => u :: q.1, q.2)

/-- Outer unification loop over the distinct dates. -/
def unifyDates (smp : Sampler) (nt : List NTRow) (ss : List SSRow)
    (fs : List FSRow) (dates : List Nat) (accounts : List String)
    (s : RState) : List URow × RState :=
  match dates with
  | [] => ([], s)
  | d :: rest =>
    let p := unifyAcc smp nt ss fs d accounts s
    let q := unifyDates smp nt ss fs rest accounts p.2
    (p.1 ++ q.1, q.2)

/-- `create_unified_dataset` (`app.py` lines 107-134): iterate the
product of `nt_df['date'].unique()` and `nt_df['account_id'].unique()`
and emit unified rows. -/
def create_unified_dataset (smp : Sampler) (nt : List NTRow)
    (ss : List SSRow) (fs : List FSRow) (s : RState) :
    List URow × RState :=
  unifyDates smp nt ss fs (uniqueList (nt.map (·.date)))
    (uniqueList (nt.map (·.account_id))) s

/-- The in-session state the Streamlit app holds while
`create_unified_dataset` runs: the three cached source tables and the
global RNG.  The Python function only reads the three dataframes
(boolean-mask filtering returns fresh frames) and only the RNG state
is advanced. -/
structure AppState where
  nt : List NTRow
  ss : List SSRow
  fs : List FSRow
  rng : RState
deriving DecidableEq, Repr

/-- Running the unifier inside the app state: returns the unified table
and the state after the call (tables untouched, RNG advanced). -/
def runCreateUnified (smp : Sampler) (st : AppState) :
    List URow × AppState :=
  let p := create_unified_dataset smp st.nt st.ss st.fs st.rng
  (p.1, ⟨st.nt, st.ss, st.fs, p.2⟩)

/-- The deterministic part of a unified row: every field except the
three drawn from the RNG (`benchmark_return` and `risk_score` can be
fallback draws, `data_quality_score` always is). -/
def projURow (u : URow) : Nat × String × ℚ × ℚ × ℚ × ℚ × ℚ :=
  (u.date, u.fund_id, u.nav_per_share, u.total_net_assets,
   u.shares_outstanding, u.market_value, u.cash_balance)

/-- The (date, account) key of a Northern Trust row. -/
def ntKey (r : NTRow) : Nat × String := (r.date, r.account_id)

/-- The (date, account) key of a State Street row. -/
def ssKey (r : SSRow) : Nat × String := (r.date, r.account_id)

/-- The (date, account) key of a FactSet row. -/
def fsKey (r : FSRow) : Nat × String := (r.date, r.account_id)

/-- A concrete sampling oracle used to instantiate theorems with
hypotheses on explicit inputs: every draw returns its draw index. -/
def smpW : Sampler := ⟨fun _ _ _ c => (c : ℚ), fun _ _ _ c => (c : ℚ)⟩

/-- A concrete one-row Northern Trust table. -/
def ntW : List NTRow := [⟨0, "FUND001", 100, 1000, 10, "Northern Trust"⟩]

/-- A concrete State Street table with two rows matching the key
(0, FUND001), to exercise the first-match policy. -/
def ssW : List SSRow :=
  [⟨0, "FUND001", 111, 22, 3, "State Street"⟩,
   ⟨0, "FUND001", 999, 888, 3, "State Street"⟩]

/-- A concrete FactSet table with two rows matching the key
(0, FUND001). -/
def fsW : List FSRow :=
  [⟨0, "FUND001", 5, 6, 7, "FactSet"⟩,
   ⟨0, "FUND001", 55, 66, 77, "FactSet"⟩]

/-- The unified row `create_unified_dataset smpW ntW ssW fsW ⟨0, 0⟩`
produces: all source fields copied from the first matches, and
`data_quality_score` drawn at counter 0. -/
def uW : URow := ⟨0, "FUND001", 100, 1000, 10, 111, 22, 5, 6, ((0 : Nat) : ℚ)⟩

/-- The unified row `create_unified_dataset smpW ntW [] [] ⟨0, 0⟩`
produces: State Street fallbacks 1000 * 0.95 and 1000 * 0.05, FactSet
fallbacks drawn at counters 0 and 1, quality score at counter 2. -/
def uW2 : URow :=
  ⟨0, "FUND001", 100, 1000, 10, 950, 50,
   ((0 : Nat) : ℚ), ((1 : Nat) : ℚ), ((2 : Nat) : ℚ)⟩

/-! ### Lemmas about `uniqueList` (the model of `.unique()`) -/

theorem mem_uniqueAux {α : Type} [DecidableEq α] (l : List α) :
    ∀ (seen : List α) (x : α),
      x ∈ uniqueAux l seen ↔ x ∈ l ∧ x ∉ seen := by
  induction l with
  | nil => intro seen x; simp [uniqueAux]
  | cons y ys ih =>
    intro seen x
    by_cases hy : y ∈ seen
    · simp only [uniqueAux, if_pos hy, ih, List.mem_cons]
      by_cases hxy : x = y
      · subst hxy; simp [hy]
      · simp [hxy]
    · simp only [uniqueAux, if_neg hy, List.mem_cons, ih]
      by_cases hxy : x = y
      · subst hxy; simp [hy]
      · simp [hxy]

theorem nodup_uniqueAux {α : Type} [DecidableEq α] (l : List α) :
    ∀ seen : List α, (uniqueAux l seen).Nodup := by
  induction l with
  | nil => intro seen; simp [uniqueAux]
  | cons y ys ih =>
    intro seen
    by_cases hy : y ∈ seen
    · simpa [uniqueAux, hy] using ih seen
    · simp only [uniqueAux, if_neg hy, List.nodup_cons]
      refine ⟨fun hmem => ?_, ih (y :: seen)⟩
      exact ((mem_uniqueAux ys (y :: seen) y).1 hmem).2 (List.mem_cons_self y seen)

theorem mem_uniqueList {α : Type} [DecidableEq α] (l : List α) (x : α) :
    x ∈ uniqueList l ↔ x ∈ l := by
  simp [uniqueList, mem_uniqueAux]

theorem nodup_uniqueList {α : Type} [DecidableEq α] (l : List α) :
    (uniqueList l).Nodup :=
  nodup_uniqueAux l []

/-! ### Structure of the generated tables -/

theorem genRowsAcc_length {ρ : Type} (gen : Nat → String → RState → ρ × RState)
    (i : Nat) (accounts : List String) :
    ∀ s, (genRowsAcc gen i accounts s).1.length = accounts.length := by
  induction accounts with
  | nil => intro s; simp [genRowsAcc]
  | cons a rest ih => intro s; simp [genRowsAcc, ih]

theorem genRowsDates_length {ρ : Type} (gen : Nat → String → RState → ρ × RState)
    (dates : List Nat) (accounts : List String) :
    ∀ s, (genRowsDates gen dates accounts s).1.length
      = dates.length * accounts.length := by
  induction dates with
  | nil => intro s; simp [genRowsDates]
  | cons d rest ih =>
    intro s
    simp [genRowsDates, genRowsAcc_length, ih, Nat.succ_mul, Nat.add_comm]

theorem genRowsAcc_map_key {ρ : Type} (k : ρ → Nat × String)
    (gen : Nat → String → RState → ρ × RState) (i : Nat)
    (hk : ∀ a s, k (gen i a s).1 = (i, a)) (accounts : List String) :
    ∀ s, (genRowsAcc gen i accounts s).1.map k
      = accounts.map (fun a => (i, a)) := by
  induction accounts with
  | nil => intro s; simp [genRowsAcc]
  | cons a rest ih => intro s; simp [genRowsAcc, hk, ih]

theorem genRowsDates_map_key {ρ : Type} (k : ρ → Nat × String)
    (gen : Nat → String → RState → ρ × RState)
    (hk : ∀ i a s, k (gen i a s).1 = (i, a))
    (dates : List Nat) (accounts : List String) :
    ∀ s, (genRowsDates gen dates accounts s).1.map k
      = dates.flatMap (fun d => accounts.map (fun a => (d, a))) := by
  induction dates with
  | nil => intro s; simp [genRowsDates]
  | cons d rest ih =>
    intro s
    simp [genRowsDates, genRowsAcc_map_key k gen d (hk d), ih]

theorem mem_pair_flatMap (dates : List Nat) (accounts : List String)
    (x : Nat × String) :
    x ∈ dates.flatMap (fun d => accounts.map (fun a => (d, a)))
      ↔ x.1 ∈ dates ∧ x.2 ∈ accounts := by
  rcases x with ⟨d0, a0⟩
  simp only [List.mem_flatMap, List.mem_map]
  constructor
  · rintro ⟨d, hd, a, ha, heq⟩
    obtain ⟨rfl, rfl⟩ : d = d0 ∧ a = a0 := by
      constructor <;> [exact congrArg Prod.fst heq; exact congrArg Prod.snd heq]
    exact ⟨hd, ha⟩
  · rintro ⟨hd, ha⟩
    exact ⟨d0, hd, a0, ha, rfl⟩

theorem nodup_pair_flatMap (dates : List Nat) (accounts : List String)
    (hd : dates.Nodup) (ha : accounts.Nodup) :
    (dates.flatMap (fun d => accounts.map (fun a => (d, a)))).Nodup := by
  induction dates with
  | nil => simp
  | cons d rest ih =>
    simp only [List.flatMap_cons, List.nodup_append]
    rcases List.nodup_cons.1 hd with ⟨hdr, hrest⟩
    refine ⟨ha.map (fun a b hab => congrArg Prod.snd hab), ih hrest, ?_⟩
    intro x hx1 hx2
    rcases List.mem_map.1 hx1 with ⟨a, _, rfl⟩
    have := (mem_pair_flatMap rest accounts (d, a)).1 hx2
    exact hdr this.1

/-! ### Generic counting lemmas -/

theorem sum_map_eq_countP {α : Type} (l : List α) (g : α → Nat)
    (hg : ∀ x ∈ l, g x ≤ 1) :
    (l.map g).sum = l.countP (fun x => decide (g x ≠ 0)) := by
  induction l with
  | nil => simp
  | cons a rest ih =>
    have ha := hg a (List.mem_cons_self a rest)
    have ih1 := ih (fun x hx => hg x (List.mem_cons_of_mem _ hx))
    simp only [List.map_cons, List.sum_cons, List.countP_cons, ih1]
    by_cases h0 : g a = 0
    · simp [h0]
    · have h1 : g a = 1 := by omega
      simp [h1]
      omega

theorem map_countP_sum_eq_length {α β : Type} [DecidableEq β] (f : α → β) :
    ∀ (keys : List β) (l : List α), keys.Nodup → (∀ x ∈ l, f x ∈ keys) →
      (keys.map (fun k => l.countP (fun x => decide (f x = k)))).sum
        = l.length := by
  intro keys
  induction keys with
  | nil =>
    intro l _ hcov
    have : l = [] := by
      cases l with
      | nil => rfl
      | cons x xs => exact absurd (hcov x (List.mem_cons_self x xs)) (by simp)
    simp [this]
  | cons k ks ih =>
    intro l hnd hcov
    have hk : k ∉ ks := (List.nodup_cons.1 hnd).1
    have step : ∀ k' ∈ ks,
        l.countP (fun x => decide (f x = k'))
          = (l.filter (fun x => decide (f x ≠ k))).countP
              (fun x => decide (f x = k')) := by
      intro k' hk'
      rw [List.countP_filter]
      refine (List.countP_congr ?_).symm
      intro x _
      by_cases hfx : f x = k'
      · have hne : k' ≠ k := fun h => hk (h ▸ hk')
        simp [hfx, hne]
      · simp [hfx]
    have hflt : ∀ x ∈ l.filter (fun x => decide (f x ≠ k)), f x ∈ ks := by
      intro x hx
      rcases List.mem_filter.1 hx with ⟨hxl, hdec⟩
      have : f x ≠ k := by simpa using hdec
      rcases List.mem_cons.1 (hcov x hxl) with h | h
      · exact absurd h this
      · exact h
    calc (List.map (fun k => l.countP (fun x => decide (f x = k))) (k :: ks)).sum
        = l.countP (fun x => decide (f x = k))
          + (ks.map (fun k' => l.countP (fun x => decide (f x = k')))).sum := by
          simp
      _ = l.countP (fun x => decide (f x = k))
          + (ks.map (fun k' => (l.filter (fun x => decide (f x ≠ k))).countP
              (fun x => decide (f x = k')))).sum := by
          rw [List.map_eq_map_iff.mpr step]
      _ = l.countP (fun x => decide (f x = k))
          + (l.filter (fun x => decide (f x ≠ k))).length := by
          rw [ih (l.filter (fun x => decide (f x ≠ k))) (List.nodup_cons.1 hnd).2 hflt]
      _ = l.length := by
          rw [← List.countP_eq_length_filter]
          have := List.length_eq_countP_add_countP
            (p := fun x => decide (f x = k)) (l := l)
          rw [this]
          congr 1
          refine List.countP_congr ?_
          intro x _
          by_cases hfx : f x = k <;> simp [hfx]

theorem countP_le_one_of_nodup_map {α β : Type} [DecidableEq β]
    (l : List α) (f : α → β) (h : (l.map f).Nodup) (b : β) :
    l.countP (fun x => decide (f x = b)) ≤ 1 := by
  induction l with
  | nil => simp
  | cons a rest ih =>
    simp only [List.map_cons, List.nodup_cons] at h
    simp only [List.countP_cons]
    by_cases hab : f a = b
    · have hz : rest.countP (fun x => decide (f x = b)) = 0 := by
        rw [List.countP_eq_zero]
        intro x hx hdec
        have hfb : f x = b := by simpa using hdec
        exact h.1 (List.mem_map.2 ⟨x, hx, hfb.trans hab.symm⟩)
      simp [hab, hz]
    · simpa [hab] using ih h.2

/-! ### Characterisation of the unifier -/

theorem unifyRow_none (smp : Sampler) (nt : List NTRow) (ss : List SSRow)
    (fs : List FSRow) (d : Nat) (a : String) (s : RState)
    (h : ntMatches nt d a = []) :
    unifyRow smp nt ss fs d a s = (none, s) := by
  simp [unifyRow, h]

theorem unifyRow_some (smp : Sampler) (nt : List NTRow) (ss : List SSRow)
    (fs : List FSRow) (d : Nat) (a : String) (s : RState) (ntr : NTRow)
    (t : List NTRow) (h : ntMatches nt d a = ntr :: t) :
    ∃ u, (unifyRow smp nt ss fs d a s).1 = some u := by
  simp only [unifyRow, h]
  exact ⟨_, rfl⟩

theorem unifyRow_spec (smp : Sampler) (nt : List NTRow) (ss : List SSRow)
    (fs : List FSRow) (d : Nat) (a : String) (s : RState) (u : URow)
    (h : (unifyRow smp nt ss fs d a s).1 = some u) :
    ∃ ntr t, ntMatches nt d a = ntr :: t ∧
      u.date = d ∧ u.fund_id = a ∧
      u.nav_per_share = ntr.nav ∧
      u.total_net_assets = ntr.total_assets ∧
      u.shares_outstanding = ntr.shares_outstanding ∧
      (∀ sr st, ssMatches ss d a = sr :: st →
        u.market_value = sr.market_value ∧
        u.cash_balance = sr.cash_balance) ∧
      (ssMatches ss d a = [] →
        u.market_value = ntr.total_assets * 0.95 ∧
        u.cash_balance = ntr.total_assets * 0.05) ∧
      (∀ fr ft, fsMatches fs d a = fr :: ft →
        u.benchmark_return = fr.benchmark_return ∧
        u.risk_score = fr.risk_score) ∧
      (fsMatches fs d a = [] →
        u.benchmark_return = (drawNormal smp 0.0008 0.02 s).1 ∧
        u.risk_score = (drawUniform smp 1 10 (drawNormal smp 0.0008 0.02 s).2).1) := by
  cases hnt : ntMatches nt d a with
  | nil => rw [unifyRow_none smp nt ss fs d a s hnt] at h; simp at h
  | cons ntr t =>
    refine ⟨ntr, t, rfl, ?_⟩
    cases hss : ssMatches ss d a with
    | nil =>
      cases hfs : fsMatches fs d a with
      | nil =>
        simp only [unifyRow, hnt, hss, hfs, Option.some.injEq] at h
        subst h
        simp [hss, hfs]
      | cons fr ft =>
        simp only [unifyRow, hnt, hss, hfs, Option.some.injEq] at h
        subst h
        simp [hss, hfs]
    | cons sr st =>
      cases hfs : fsMatches fs d a with
      | nil =>
        simp only [unifyRow, hnt, hss, hfs, Option.some.injEq] at h
        subst h
        simp [hss, hfs]
      | cons fr ft =>
        simp only [unifyRow, hnt, hss, hfs, Option.some.injEq] at h
        subst h
        simp [hss, hfs]

theorem mem_unifyAcc (smp : Sampler) (nt : List NTRow) (ss : List SSRow)
    (fs : List FSRow) (d : Nat) (accounts : List String) :
    ∀ s u, u ∈ (unifyAcc smp nt ss fs d accounts s).1 →
      ∃ a s1, a ∈ accounts ∧ (unifyRow smp nt ss fs d a s1).1 = some u := by
  induction accounts with
  | nil => intro s u hu; simp [unifyAcc] at hu
  | cons a rest ih =>
    intro s u hu
    simp only [unifyAcc] at hu
    cases hr : (unifyRow smp nt ss fs d a s).1 with
    | none =>
      rw [hr] at hu
      rcases ih _ u hu with ⟨a1, s1, ha1, hs1⟩
      exact ⟨a1, s1, List.mem_cons_of_mem _ ha1, hs1⟩
    | some v =>
      rw [hr] at hu
      rcases List.mem_cons.1 hu with rfl | hu2
      · exact ⟨a, s, List.mem_cons_self a rest, hr⟩
      · rcases ih _ u hu2 with ⟨a1, s1, ha1, hs1⟩
        exact ⟨a1, s1, List.mem_cons_of_mem _ ha1, hs1⟩

theorem mem_unifyDates (smp : Sampler) (nt : List NTRow) (ss : List SSRow)
    (fs : List FSRow) (dates : List Nat) (accounts : List String) :
    ∀ s u, u ∈ (unifyDates smp nt ss fs dates accounts s).1 →
      ∃ d a s1, d ∈ dates ∧ a ∈ accounts ∧
        (unifyRow smp nt ss fs d a s1).1 = some u := by
  induction dates with
  | nil => intro s u hu; simp [unifyDates] at hu
  | cons d rest ih =>
    intro s u hu
    simp only [unifyDates, List.mem_append] at hu
    rcases hu with hu | hu
    · rcases mem_unifyAcc smp nt ss fs d accounts _ u hu with ⟨a, s1, ha, hs1⟩
      exact ⟨d, a, s1, List.mem_cons_self d rest, ha, hs1⟩
    · rcases ih _ u hu with ⟨d1, a, s1, hd1, ha, hs1⟩
      exact ⟨d1, a, s1, List.mem_cons_of_mem _ hd1, ha, hs1⟩

theorem mem_create_unified (smp : Sampler) (nt : List NTRow)
    (ss : List SSRow) (fs : List FSRow) (s : RState) (u : URow)
    (hu : u ∈ (create_unified_dataset smp nt ss fs s).1) :
    ∃ s1, (unifyRow smp nt ss fs u.date u.fund_id s1).1 = some u := by
  rcases mem_unifyDates smp nt ss fs _ _ _ u hu with ⟨d, a, s1, _, _, hrow⟩
  rcases unifyRow_spec smp nt ss fs d a s1 u hrow with
    ⟨ntr, t, _, hdate, hfund, _⟩
  refine ⟨s1, ?_⟩
  rw [hdate, hfund]
  exact hrow

theorem unifyAcc_length (smp : Sampler) (nt : List NTRow) (ss : List SSRow)
    (fs : List FSRow) (d : Nat) (accounts : List String) :
    ∀ s, (unifyAcc smp nt ss fs d accounts s).1.length
      = accounts.countP (fun a => decide (ntMatches nt d a ≠ [])) := by
  induction accounts with
  | nil => intro s; simp [unifyAcc]
  | cons a rest ih =>
    intro s
    simp only [unifyAcc, List.countP_cons]
    cases hnt : ntMatches nt d a with
    | nil =>
      rw [unifyRow_none smp nt ss fs d a s hnt]
      simp [ih, hnt]
    | cons ntr t =>
      rcases unifyRow_some smp nt ss fs d a s ntr t hnt with ⟨v, hv⟩
      rw [hv]
      simp [ih, hnt]

theorem unifyDates_length (smp : Sampler) (nt : List NTRow) (ss : List SSRow)
    (fs : List FSRow) (dates : List Nat) (accounts : List String) :
    ∀ s, (unifyDates smp nt ss fs dates accounts s).1.length
      = (dates.map (fun d =>
          accounts.countP (fun a => decide (ntMatches nt d a ≠ [])))).sum := by
  induction dates with
  | nil => intro s; simp [unifyDates]
  | cons d rest ih =>
    intro s
    simp [unifyDates, unifyAcc_length, ih]

theorem unifyAcc_countP_key (smp : Sampler) (nt : List NTRow)
    (ss : List SSRow) (fs : List FSRow) (d : Nat) (accounts : List String)
    (hnd : accounts.Nodup) (d0 : Nat) (a0 : String) :
    ∀ s, (unifyAcc smp nt ss fs d accounts s).1.countP
        (fun u => decide (u.date = d0 ∧ u.fund_id = a0))
      = if d = d0 ∧ a0 ∈ accounts ∧ ntMatches nt d a0 ≠ [] then 1 else 0 := by
  induction accounts with
  | nil => intro s; simp [unifyAcc]
  | cons a rest ih =>
    rcases List.nodup_cons.1 hnd with ⟨hanr, hndr⟩
    intro s
    simp only [unifyAcc]
    cases hnt : ntMatches nt d a with
    | nil =>
      rw [unifyRow_none smp nt ss fs d a s hnt]
      simp only []
      rw [ih hndr s]
      by_cases haa : a0 = a
      · subst haa
        simp [hnt, hanr]
      · simp [List.mem_cons, haa]
    | cons ntr t =>
      rcases unifyRow_some smp nt ss fs d a s ntr t hnt with ⟨v, hv⟩
      rcases unifyRow_spec smp nt ss fs d a s v hv with
        ⟨ntr1, t1, _, hvd, hvf, _⟩
      rw [hv]
      simp only [List.countP_cons, ih hndr]
      by_cases haa : a0 = a
      · subst haa
        by_cases hdd : d = d0
        · subst hdd
          simp [hvd, hvf, hanr, hnt]
        · simp [hvd, hvf, hdd]
      · have hne : ¬a = a0 := fun h => haa h.symm
        by_cases hdd : d = d0
        · subst hdd
          simp [hvd, hvf, haa, hne, List.mem_cons]
        · simp [hvd, hvf, hdd, List.mem_cons, haa, hne]

theorem unifyDates_countP_key (smp : Sampler) (nt : List NTRow)
    (ss : List SSRow) (fs : List FSRow) (dates : List Nat)
    (accounts : List String) (hndd : dates.Nodup) (hnda : accounts.Nodup)
    (d0 : Nat) (a0 : String) :
    ∀ s, (unifyDates smp nt ss fs dates accounts s).1.countP
        (fun u => decide (u.date = d0 ∧ u.fund_id = a0))
      = if d0 ∈ dates ∧ a0 ∈ accounts ∧ ntMatches nt d0 a0 ≠ []
        then 1 else 0 := by
  induction dates with
  | nil => intro s; simp [unifyDates]
  | cons d rest ih =>
    rcases List.nodup_cons.1 hndd with ⟨hdnr, hndr⟩
    intro s
    simp only [unifyDates, List.countP_append]
    rw [unifyAcc_countP_key smp nt ss fs d accounts hnda d0 a0 s, ih hndr]
    by_cases hdd : d = d0
    · subst hdd
      simp [hdnr]
    · have hne : ¬d0 = d := fun h => hdd h.symm
      simp [hdd, List.mem_cons, hne]

/-! ### State-independence of the non-random fields -/

theorem unifyRow_proj (smp : Sampler) (nt : List NTRow) (ss : List SSRow)
    (fs : List FSRow) (d : Nat) (a : String) (s t : RState) :
    ((unifyRow smp nt ss fs d a s).1).map projURow
      = ((unifyRow smp nt ss fs d a t).1).map projURow := by
  cases hnt : ntMatches nt d a with
  | nil => simp [unifyRow, hnt]
  | cons ntr tl =>
    cases hss : ssMatches ss d a <;> cases hfs : fsMatches fs d a <;>
      simp [unifyRow, hnt, hss, hfs, projURow]

theorem unifyAcc_proj (smp : Sampler) (nt : List NTRow) (ss : List SSRow)
    (fs : List FSRow) (d : Nat) (accounts : List String) :
    ∀ s t, ((unifyAcc smp nt ss fs d accounts s).1).map projURow
      = ((unifyAcc smp nt ss fs d accounts t).1).map projURow := by
  induction accounts with
  | nil => intro s t; simp [unifyAcc]
  | cons a rest ih =>
    intro s t
    have hrow := unifyRow_proj smp nt ss fs d a s t
    simp only [unifyAcc]
    cases h1 : (unifyRow smp nt ss fs d a s).1 with
    | none =>
      cases h2 : (unifyRow smp nt ss fs d a t).1 with
      | none => exact ih _ _
      | some v => rw [h1, h2] at hrow; simp at hrow
    | some v =>
      cases h2 : (unifyRow smp nt ss fs d a t).1 with
      | none => rw [h1, h2] at hrow; simp at hrow
      | some w =>
        rw [h1, h2] at hrow
        simp at hrow
        simp [hrow]
        exact ih _ _

theorem unifyDates_proj (smp : Sampler) (nt : List NTRow) (ss : List SSRow)
    (fs : List FSRow) (dates : List Nat) (accounts : List String) :
    ∀ s t, ((unifyDates smp nt ss fs dates accounts s).1).map projURow
      = ((unifyDates smp nt ss fs dates accounts t).1).map projURow := by
  induction dates with
  | nil => intro s t; simp [unifyDates]
  | cons d rest ih =>
    intro s t
    simp only [unifyDates, List.map_append]
    rw [unifyAcc_proj smp nt ss fs d accounts s t, ih]

/-! ### Row-count of the unified table -/

theorem ntMatches_ne_nil_iff (nt : List NTRow) (d : Nat) (a : String) :
    ntMatches nt d a ≠ []
      ↔ nt.countP (fun r => decide (r.date = d ∧ r.account_id = a)) ≠ 0 := by
  rw [Ne, Ne, ntMatches, List.filter_eq_nil_iff, List.countP_eq_zero]

theorem ntMatches_head (nt : List NTRow) (d : Nat) (a : String)
    (ntr : NTRow) (t : List NTRow) (h : ntMatches nt d a = ntr :: t) :
    ntr ∈ nt ∧ ntr.date = d ∧ ntr.account_id = a := by
  have hm : ntr ∈ ntMatches nt d a := by
    rw [h]; exact List.mem_cons_self _ _
  rcases List.mem_filter.1 hm with ⟨h1, h2⟩
  refine ⟨h1, ?_⟩
  simpa using h2

theorem countP_hits_eq (nt : List NTRow) (d : Nat) (accounts : List String)
    (hnd : accounts.Nodup)
    (hcov : ∀ r ∈ nt, r.date = d → r.account_id ∈ accounts)
    (huniq : ∀ a : String,
      nt.countP (fun r => decide (r.date = d ∧ r.account_id = a)) ≤ 1) :
    accounts.countP (fun a => decide (ntMatches nt d a ≠ []))
      = nt.countP (fun r => decide (r.date = d)) := by
  have h2 : ∀ a ∈ accounts,
      nt.countP (fun r => decide (r.date = d ∧ r.account_id = a))
        = (nt.filter (fun r => decide (r.date = d))).countP
            (fun r => decide (r.account_id = a)) := by
    intro a _
    rw [List.countP_filter]
    refine List.countP_congr ?_
    intro r _
    by_cases hd : r.date = d <;> by_cases ha : r.account_id = a <;>
      simp [hd, ha]
  have hcov2 : ∀ r ∈ nt.filter (fun r => decide (r.date = d)),
      r.account_id ∈ accounts := by
    intro r hr
    rcases List.mem_filter.1 hr with ⟨hrl, hrd⟩
    exact hcov r hrl (by simpa using hrd)
  calc accounts.countP (fun a => decide (ntMatches nt d a ≠ []))
      = accounts.countP (fun a =>
          decide (nt.countP
            (fun r => decide (r.date = d ∧ r.account_id = a)) ≠ 0)) :=
        List.countP_congr (fun a _ => by simpa using ntMatches_ne_nil_iff nt d a)
    _ = (accounts.map (fun a => nt.countP
          (fun r => decide (r.date = d ∧ r.account_id = a)))).sum :=
        (sum_map_eq_countP accounts _ (fun a _ => huniq a)).symm
    _ = (accounts.map (fun a => (nt.filter (fun r => decide (r.date = d))).countP
          (fun r => decide (r.account_id = a)))).sum := by
        rw [List.map_eq_map_iff.mpr h2]
    _ = (nt.filter (fun r => decide (r.date = d))).length :=
        map_countP_sum_eq_length (fun r : NTRow => r.account_id) accounts _ hnd hcov2
    _ = nt.countP (fun r => decide (r.date = d)) :=
        (List.countP_eq_length_filter _ _).symm

theorem countP_key_le_one (nt : List NTRow)
    (huniq : (nt.map ntKey).Nodup) (d : Nat) (a : String) :
    nt.countP (fun r => decide (r.date = d ∧ r.account_id = a)) ≤ 1 := by
  calc nt.countP (fun r => decide (r.date = d ∧ r.account_id = a))
      = nt.countP (fun r => decide (ntKey r = (d, a))) :=
        List.countP_congr (fun r _ => by simp [ntKey, Prod.ext_iff])
    _ ≤ 1 := countP_le_one_of_nodup_map nt ntKey huniq (d, a)

theorem create_unified_length (smp : Sampler) (nt : List NTRow)
    (ss : List SSRow) (fs : List FSRow) (s : RState)
    (huniq : (nt.map ntKey).Nodup) :
    (create_unified_dataset smp nt ss fs s).1.length = nt.length := by
  rw [create_unified_dataset, unifyDates_length]
  have hstep : ∀ d ∈ uniqueList (nt.map (·.date)),
      (uniqueList (nt.map (·.account_id))).countP
          (fun a => decide (ntMatches nt d a ≠ []))
        = nt.countP (fun r => decide (r.date = d)) := by
    intro d _
    refine countP_hits_eq nt d _ (nodup_uniqueList _) ?_
      (fun a => countP_key_le_one nt huniq d a)
    intro r hr _
    exact (mem_uniqueList _ _).2 (List.mem_map.2 ⟨r, hr, rfl⟩)
  rw [List.map_eq_map_iff.mpr hstep]
  refine map_countP_sum_eq_length (fun r : NTRow => r.date) _ nt (nodup_uniqueList _) ?_
  intro r hr
  exact (mem_uniqueList _ _).2 (List.mem_map.2 ⟨r, hr, rfl⟩)

/-! ### The claims -/

/-- C1: the claim that `create_unified_dataset` is a pure function of
its three input tables is false on the code: the function draws
`data_quality_score` (and, when FactSet lacks a key, the benchmark and
risk fallbacks) from the global RNG without reseeding.  A first call
from RNG state (0, 0) ends in state (0, 3), and a second call made
from that state returns a different table. -/
theorem C1_counterexample_second_call_differs :
    (create_unified_dataset smpW ntW [] [] ⟨0, 0⟩).2 = ⟨0, 3⟩ ∧
    (create_unified_dataset smpW ntW [] [] ⟨0, 0⟩).1
      ≠ (create_unified_dataset smpW ntW [] [] ⟨0, 3⟩).1 := by
  constructor
  · norm_num [create_unified_dataset, uniqueList, uniqueAux, unifyDates,
      unifyAcc, unifyRow, ntMatches, ssMatches, fsMatches, drawNormal,
      drawUniform, smpW, ntW, List.filter]
  · norm_num [create_unified_dataset, uniqueList, uniqueAux, unifyDates,
      unifyAcc, unifyRow, ntMatches, ssMatches, fsMatches, drawNormal,
      drawUniform, smpW, ntW, List.filter]

/-- C1 (amended): `create_unified_dataset` is a function of its three
inputs and the hidden global RNG state only, and the RNG state can
only influence the drawn fields: for any two RNG states the two
outputs agree row-by-row on date, fund_id, nav_per_share,
total_net_assets, shares_outstanding, market_value and cash_balance
(hence also on row count); only benchmark_return, risk_score and
data_quality_score can differ. -/
theorem C1_deterministic_fields_state_independent (smp : Sampler)
    (nt : List NTRow) (ss : List SSRow) (fs : List FSRow) (s t : RState) :
    ((create_unified_dataset smp nt ss fs s).1).map projURow
      = ((create_unified_dataset smp nt ss fs t).1).map projURow := by
  rw [create_unified_dataset, create_unified_dataset]
  exact unifyDates_proj smp nt ss fs _ _ s t

/-- C2: when every (date, account_id) pair occurs at most once in
TableA, the unified table has exactly as many rows as TableA, and
every unified row's (date, fund_id) pair comes from a TableA row. -/
theorem C2_row_count_and_key_provenance (smp : Sampler) (nt : List NTRow)
    (ss : List SSRow) (fs : List FSRow) (s : RState)
    (huniq : (nt.map ntKey).Nodup) :
    (create_unified_dataset smp nt ss fs s).1.length = nt.length ∧
    ∀ u ∈ (create_unified_dataset smp nt ss fs s).1,
      ∃ r ∈ nt, r.date = u.date ∧ r.account_id = u.fund_id := by
  refine ⟨create_unified_length smp nt ss fs s huniq, ?_⟩
  intro u hu
  rcases mem_create_unified smp nt ss fs s u hu with ⟨s1, hrow⟩
  rcases unifyRow_spec smp nt ss fs u.date u.fund_id s1 u hrow with
    ⟨ntr, t, hnt, _⟩
  rcases ntMatches_head nt u.date u.fund_id ntr t hnt with ⟨hm, hd, ha⟩
  exact ⟨ntr, hm, hd, ha⟩

/-- C2 witness: on a concrete one-row TableA with duplicated keys in
TableB and TableC, the unified table has exactly one row. -/
theorem C2_witness :
    (create_unified_dataset smpW ntW ssW fsW ⟨0, 0⟩).1.length = 1 :=
  Eq.trans
    (C2_row_count_and_key_provenance smpW ntW ssW fsW ⟨0, 0⟩ (by decide)).1
    rfl

/-- C3: each unified row's market_value and cash_balance are copied
from the first matching SourceB row when one exists, and otherwise are
exactly total_assets * 0.95 and total_assets * 0.05 of the matching
SourceA row (whose total_assets is the row's total_net_assets). -/
theorem C3_market_value_cash_balance_policy (smp : Sampler)
    (nt : List NTRow) (ss : List SSRow) (fs : List FSRow) (s : RState)
    (u : URow) (hu : u ∈ (create_unified_dataset smp nt ss fs s).1) :
    (∀ sr st, ssMatches ss u.date u.fund_id = sr :: st →
      u.market_value = sr.market_value ∧
      u.cash_balance = sr.cash_balance) ∧
    (ssMatches ss u.date u.fund_id = [] →
      ∃ ntr t, ntMatches nt u.date u.fund_id = ntr :: t ∧
        u.total_net_assets = ntr.total_assets ∧
        u.market_value = ntr.total_assets * 0.95 ∧
        u.cash_balance = ntr.total_assets * 0.05) := by
  rcases mem_create_unified smp nt ss fs s u hu with ⟨s1, hrow⟩
  rcases unifyRow_spec smp nt ss fs u.date u.fund_id s1 u hrow with
    ⟨ntr, t, hnt, _hd, _hf, _hnav, htna, _hsh, hsscons, hssnil, _⟩
  refine ⟨hsscons, fun hss => ⟨ntr, t, hnt, htna, ?_, ?_⟩⟩
  · exact (hssnil hss).1
  · exact (hssnil hss).2

/-- C3 witness: on the concrete tables, the unified row copies
market_value 111 and cash_balance 22 from the first of the two
matching SourceB rows. -/
theorem C3_witness : uW.market_value = 111 ∧ uW.cash_balance = 22 := by
  have h := (C3_market_value_cash_balance_policy smpW ntW ssW fsW ⟨0, 0⟩ uW
    (by norm_num [create_unified_dataset, uniqueList, uniqueAux, unifyDates,
      unifyAcc, unifyRow, ntMatches, ssMatches, fsMatches, drawNormal,
      drawUniform, smpW, ntW, ssW, fsW, uW, List.filter])).1
    ⟨0, "FUND001", 111, 22, 3, "State Street"⟩
    [⟨0, "FUND001", 999, 888, 3, "State Street"⟩]
    (by norm_num [ssMatches, ssW, uW, List.filter])
  exact h

/-- C4: each unified row's nav_per_share, total_net_assets and
shares_outstanding are exact copies of the nav, total_assets and
shares_outstanding of the first matching SourceA row, with no
fallback path, for every combination of input tables. -/
theorem C4_source_a_fields_exact_copy (smp : Sampler) (nt : List NTRow)
    (ss : List SSRow) (fs : List FSRow) (s : RState) (u : URow)
    (hu : u ∈ (create_unified_dataset smp nt ss fs s).1) :
    ∃ ntr t, ntMatches nt u.date u.fund_id = ntr :: t ∧
      u.nav_per_share = ntr.nav ∧
      u.total_net_assets = ntr.total_assets ∧
      u.shares_outstanding = ntr.shares_outstanding := by
  rcases mem_create_unified smp nt ss fs s u hu with ⟨s1, hrow⟩
  rcases unifyRow_spec smp nt ss fs u.date u.fund_id s1 u hrow with
    ⟨ntr, t, hnt, _hd, _hf, hnav, htna, hsh, _⟩
  exact ⟨ntr, t, hnt, hnav, htna, hsh⟩

/-- C4 witness: the concrete unified row copies nav 100, total assets
1000 and shares 10 from its SourceA row. -/
theorem C4_witness :
    ∃ ntr t, ntMatches ntW uW.date uW.fund_id = ntr :: t ∧
      uW.nav_per_share = ntr.nav ∧
      uW.total_net_assets = ntr.total_assets ∧
      uW.shares_outstanding = ntr.shares_outstanding :=
  C4_source_a_fields_exact_copy smpW ntW ssW fsW ⟨0, 0⟩ uW
    (by norm_num [create_unified_dataset, uniqueList, uniqueAux, unifyDates,
      unifyAcc, unifyRow, ntMatches, ssMatches, fsMatches, drawNormal,
      drawUniform, smpW, ntW, ssW, fsW, uW, List.filter])

/-- C5: each unified row's benchmark_return and risk_score are copied
from the first matching SourceC row when one exists; when none exists
they are freshly drawn from the RNG via the very same distribution
calls the Source Generator makes for a FactSet row — normal(0.0008,
0.02) for benchmark_return and uniform(1, 10) for risk_score, drawn in
that order from the RNG state reached at that row — not set to a fixed
default. -/
theorem C5_benchmark_risk_copy_or_resample (smp : Sampler)
    (nt : List NTRow) (ss : List SSRow) (fs : List FSRow) (s : RState)
    (u : URow) (hu : u ∈ (create_unified_dataset smp nt ss fs s).1) :
    (∀ fr ft, fsMatches fs u.date u.fund_id = fr :: ft →
      u.benchmark_return = fr.benchmark_return ∧
      u.risk_score = fr.risk_score) ∧
    (fsMatches fs u.date u.fund_id = [] →
      ∃ st : RState,
        u.benchmark_return = (drawNormal smp 0.0008 0.02 st).1 ∧
        u.risk_score
          = (drawUniform smp 1 10 (drawNormal smp 0.0008 0.02 st).2).1 ∧
        u.benchmark_return
          = ((genFSRow smp u.date u.fund_id st).1).benchmark_return ∧
        u.risk_score = ((genFSRow smp u.date u.fund_id st).1).risk_score) := by
  rcases mem_create_unified smp nt ss fs s u hu with ⟨s1, hrow⟩
  rcases unifyRow_spec smp nt ss fs u.date u.fund_id s1 u hrow with
    ⟨ntr, t, _hnt, _hd, _hf, _hnav, _htna, _hsh, _hsc, _hsn, hfscons, hfsnil⟩
  refine ⟨hfscons, fun hfs => ⟨s1, (hfsnil hfs).1, (hfsnil hfs).2, ?_, ?_⟩⟩
  · rw [(hfsnil hfs).1]
    simp [genFSRow]
  · rw [(hfsnil hfs).2]
    simp [genFSRow, drawUniform, drawNormal]

/-- C5 witness: with an empty TableC, the concrete unified row's
benchmark and risk fields equal the generator-distribution draws. -/
theorem C5_witness :
    (∀ fr ft, fsMatches ([] : List FSRow) uW2.date uW2.fund_id = fr :: ft →
      uW2.benchmark_return = fr.benchmark_return ∧
      uW2.risk_score = fr.risk_score) ∧
    (fsMatches ([] : List FSRow) uW2.date uW2.fund_id = [] →
      ∃ st : RState,
        uW2.benchmark_return = (drawNormal smpW 0.0008 0.02 st).1 ∧
        uW2.risk_score
          = (drawUniform smpW 1 10 (drawNormal smpW 0.0008 0.02 st).2).1 ∧
        uW2.benchmark_return
          = ((genFSRow smpW uW2.date uW2.fund_id st).1).benchmark_return ∧
        uW2.risk_score
          = ((genFSRow smpW uW2.date uW2.fund_id st).1).risk_score) :=
  C5_benchmark_risk_copy_or_resample smpW ntW [] [] ⟨0, 0⟩ uW2
    (by norm_num [create_unified_dataset, uniqueList, uniqueAux, unifyDates,
      unifyAcc, unifyRow, ntMatches, ssMatches, fsMatches, drawNormal,
      drawUniform, smpW, ntW, uW2, List.filter])

/-- C6: `generate_sample_data` is deterministic regardless of the prior
global RNG state, because it reseeds the RNG to the fixed value 42
before any sampling: any two invocations (under the same sampling
oracle, i.e. the same NumPy build) return identical tables and leave
the RNG in the same state. -/
theorem C6_generator_deterministic (smp : Sampler) (s1 s2 : RState) :
    generate_sample_data smp s1 = generate_sample_data smp s2 := by
  simp only [generate_sample_data, seedRng]

/-- C7: if a (date, account) key occurs in TableA, the unified table
contains exactly one row with that key — even when TableB or TableC
contain several rows matching the key — and that row's SourceB and
SourceC fields are copied from the first matching row in table order. -/
theorem C7_first_match_policy (smp : Sampler) (nt : List NTRow)
    (ss : List SSRow) (fs : List FSRow) (s : RState) (d : Nat) (a : String)
    (hkey : ∃ r ∈ nt, r.date = d ∧ r.account_id = a) :
    ((create_unified_dataset smp nt ss fs s).1.countP
        (fun u => decide (u.date = d ∧ u.fund_id = a)) = 1) ∧
    (∀ u ∈ (create_unified_dataset smp nt ss fs s).1,
      u.date = d → u.fund_id = a →
        (∀ sr st, ssMatches ss d a = sr :: st →
          u.market_value = sr.market_value ∧
          u.cash_balance = sr.cash_balance) ∧
        (∀ fr ft, fsMatches fs d a = fr :: ft →
          u.benchmark_return = fr.benchmark_return ∧
          u.risk_score = fr.risk_score)) := by
  rcases hkey with ⟨r, hr, hrd, hra⟩
  constructor
  · rw [create_unified_dataset,
      unifyDates_countP_key smp nt ss fs _ _ (nodup_uniqueList _)
        (nodup_uniqueList _) d a s]
    have hd : d ∈ uniqueList (nt.map (·.date)) :=
      (mem_uniqueList _ _).2 (List.mem_map.2 ⟨r, hr, hrd⟩)
    have ha : a ∈ uniqueList (nt.map (·.account_id)) :=
      (mem_uniqueList _ _).2 (List.mem_map.2 ⟨r, hr, hra⟩)
    have hhit : ntMatches nt d a ≠ [] := by
      intro hnil
      have hmem : r ∈ ntMatches nt d a :=
        List.mem_filter.2 ⟨hr, by simp [hrd, hra]⟩
      rw [hnil] at hmem
      simp at hmem
    simp [hd, ha, hhit]
  · intro u hu hud huf
    rcases mem_create_unified smp nt ss fs s u hu with ⟨s1, hrow⟩
    rcases unifyRow_spec smp nt ss fs u.date u.fund_id s1 u hrow with
      ⟨ntr, t, _hnt, _hd, _hf, _hnav, _htna, _hsh, hsscons, _hsn, hfscons, _hfn⟩
    constructor
    · intro sr st h
      exact hsscons sr st (by rw [hud, huf]; exact h)
    · intro fr ft h
      exact hfscons fr ft (by rw [hud, huf]; exact h)

/-- C7 witness: on the concrete tables with two matching SourceB and
SourceC rows, the unified table holds exactly one row for the key. -/
theorem C7_witness :
    (create_unified_dataset smpW ntW ssW fsW ⟨0, 0⟩).1.countP
      (fun u => decide (u.date = 0 ∧ u.fund_id = "FUND001")) = 1 :=
  (C7_first_match_policy smpW ntW ssW fsW ⟨0, 0⟩ 0 "FUND001" (by decide)).1

/-- C8: for every RNG oracle and prior RNG state, the generator
returns TableA with one row per (date, account) pair over the
5-account universe and the 90-day window (450 rows), TableB over the
3-account subset (270 rows) and TableC over a different 4-account
subset (360 rows); the key list of each table is exactly the
date-account product for its universe, so every (date, account) pair
appears at most once in each table. -/
theorem C8_generator_shape (smp : Sampler) (s : RState) :
    ((generate_sample_data smp s).1.1.length = 450 ∧
     (generate_sample_data smp s).1.2.1.length = 270 ∧
     (generate_sample_data smp s).1.2.2.length = 360) ∧
    ((generate_sample_data smp s).1.1.map ntKey
        = (List.range 90).flatMap (fun d => ntAccounts.map (fun a => (d, a))) ∧
     (generate_sample_data smp s).1.2.1.map ssKey
        = (List.range 90).flatMap (fun d => ssAccounts.map (fun a => (d, a))) ∧
     (generate_sample_data smp s).1.2.2.map fsKey
        = (List.range 90).flatMap (fun d => fsAccounts.map (fun a => (d, a)))) ∧
    (((generate_sample_data smp s).1.1.map ntKey).Nodup ∧
     ((generate_sample_data smp s).1.2.1.map ssKey).Nodup ∧
     ((generate_sample_data smp s).1.2.2.map fsKey).Nodup) ∧
    (ntAccounts.length = 5 ∧ ssAccounts.length = 3 ∧ fsAccounts.length = 4 ∧
     ssAccounts ⊆ ntAccounts ∧ fsAccounts ⊆ ntAccounts ∧
     ssAccounts ≠ fsAccounts) := by
  refine ⟨⟨?_, ?_, ?_⟩, ⟨?_, ?_, ?_⟩, ⟨?_, ?_, ?_⟩, by decide⟩
  · simp only [generate_sample_data, seedRng]
    rw [genRowsDates_length]
    decide
  · simp only [generate_sample_data, seedRng]
    rw [genRowsDates_length]
    decide
  · simp only [generate_sample_data, seedRng]
    rw [genRowsDates_length]
    decide
  · simp only [generate_sample_data, seedRng]
    exact genRowsDates_map_key ntKey (genNTRow smp) (fun i a s1 => rfl)
      (List.range 90) ntAccounts ⟨42, 0⟩
  · simp only [generate_sample_data, seedRng]
    exact genRowsDates_map_key ssKey (genSSRow smp) (fun i a s1 => rfl)
      (List.range 90) ssAccounts _
  · simp only [generate_sample_data, seedRng]
    exact genRowsDates_map_key fsKey (genFSRow smp) (fun i a s1 => rfl)
      (List.range 90) fsAccounts _
  · simp only [generate_sample_data, seedRng]
    rw [genRowsDates_map_key ntKey (genNTRow smp) (fun i a s1 => rfl)]
    exact nodup_pair_flatMap _ _ (List.nodup_range 90) (by decide)
  · simp only [generate_sample_data, seedRng]
    rw [genRowsDates_map_key ssKey (genSSRow smp) (fun i a s1 => rfl)]
    exact nodup_pair_flatMap _ _ (List.nodup_range 90) (by decide)
  · simp only [generate_sample_data, seedRng]
    rw [genRowsDates_map_key fsKey (genFSRow smp) (fun i a s1 => rfl)]
    exact nodup_pair_flatMap _ _ (List.nodup_range 90) (by decide)

/-- C9: `create_unified_dataset` never modifies its three input
tables: running it inside the application state returns a state whose
three cached tables are exactly the ones held before the call (only
the hidden RNG advances).  In the Python source the function only
reads the dataframes through boolean-mask filters, which create new
frames; the embedding records this absence of mutation. -/
theorem C9_unify_preserves_inputs (smp : Sampler) (st : AppState) :
    (runCreateUnified smp st).2.nt = st.nt ∧
    (runCreateUnified smp st).2.ss = st.ss ∧
    (runCreateUnified smp st).2.fs = st.fs :=
  ⟨rfl, rfl, rfl⟩

/-- C10: with an empty TableA the unifier returns an empty unified
table (and does not even touch the RNG), for every TableB and
TableC. -/
theorem C10_empty_table_a_empty_output (smp : Sampler) (ss : List SSRow)
    (fs : List FSRow) (s : RState) :
    create_unified_dataset smp [] ss fs s = ([], s) := rfl
